import Mathlib

/-!
Package urlshort: the redirect table and the dispatcher.

A shallow embedding of `handler.go` (package `urlshort`):

* `path`, `makeMap`: the rule record and the table builder;
* `MapHandler`: the redirect dispatcher;
* `parseYAML`, `YAMLHandler`: construction from a serialized document.

The two library entry points the package calls, `http.Redirect` (net/http) and
`yaml.Unmarshal` (gopkg.in/yaml.v2), are parameters of the package's functions.
What a record with a missing field decodes to is decided inside the second one,
so its decoder is followed in a section of its own, on documents without explicit
tags, aliases and merge keys. A Go `map[string]string` is a
finite map with unique keys and no order, which is `Finmap` here; the nil map and
the empty map read alike and are both `∅`. A handler is a non-nil `http.Handler`
and a request has a non-nil `URL`.
-/

namespace urlshort

/-! ## Data model -/

/-- The type `path` of handler.go, lines 68-71: one redirect rule. -/
structure path where
  Path : String
  URL : String
  deriving DecidableEq, Repr

/-- Go's `map[string]string`. -/
abbrev Table := Finmap (fun _ : String => String)

/-- The part of `*http.Request` the claims speak of; `Path` is `r.URL.Path`. -/
structure Request where
  Method : String
  Path : String
  Header : List (String × List String)
  deriving DecidableEq, Repr

/-- The value of `http.StatusFound`. -/
def StatusFound : Nat := 302

/-- An `http.Handler`: `ServeHTTP(w, r)` as a transformer of the state `W` that
stands behind the response writer. -/
abbrev Handler (W : Type) := W → Request → W

/-- The signature of `http.Redirect(w, r, url, code)`. -/
abbrev RedirectFn (W : Type) := W → Request → String → Nat → W

/-! ## The package's functions -/

/-- The function `makeMap` of handler.go, lines 60-66: start from the empty map
and assign `pathsMap[p.Path] = p.URL` for each rule in order. -/
def makeMap (paths : List path) : Table :=
  paths.foldl (fun pathsMap p => pathsMap.insert p.Path p.URL) ∅

/-- The function `MapHandler` of handler.go, lines 15-23. The comma-ok lookup
`destination, match := pathsToUrls[r.URL.Path]` is `Finmap.lookup`. -/
def MapHandler {W : Type} (Redirect : RedirectFn W) (pathsToUrls : Table)
    (fallback : Handler W) : Handler W :=
  fun w r =>
    match pathsToUrls.lookup r.Path with
    | some destination => Redirect w r destination StatusFound
    | none => fallback w r

/-- The function `parseYAML` of handler.go, lines 51-58. `Unmarshal yml` is the
pair (value left in `paths`, returned error) of `yaml.Unmarshal(yml, &paths)`
started on a nil slice. -/
def parseYAML {E : Type} (Unmarshal : List UInt8 → List path × Option E)
    (yml : List UInt8) : List path × Option E :=
  match Unmarshal yml with
  | (_, some err) => ([], some err)
  | (paths, none) => (paths, none)

/-- The function `YAMLHandler` of handler.go, lines 41-49. The result is Go's
pair (handler, error); `none` is `nil` in either component. -/
def YAMLHandler {W E : Type} (Unmarshal : List UInt8 → List path × Option E)
    (Redirect : RedirectFn W) (yml : List UInt8) (fallback : Handler W) :
    Option (Handler W) × Option E :=
  match parseYAML Unmarshal yml with
  | (_, some err) => (none, some err)
  | (paths, none) => (some (MapHandler Redirect (makeMap paths) fallback), none)

/-! ## Call log

To speak of which calls a handler makes, any handler and any `Redirect` can be
wrapped so that each call appends a record of its arguments to a log. -/

/-- One recorded call, with the response writer state and request it received. -/
inductive Call (W : Type) where
  | Redirect (w : W) (r : Request) (url : String) (code : Nat)
  | ServeHTTP (w : W) (r : Request)

/-- The library function `Redirect`, logging each call. -/
def logRedirect {W : Type} (Redirect : RedirectFn W) : RedirectFn (W × List (Call W)) :=
  fun s r url code => (Redirect s.1 r url code, s.2 ++ [Call.Redirect s.1 r url code])

/-- The handler `h`, logging each call of its `ServeHTTP`. -/
def logHandler {W : Type} (h : Handler W) : Handler (W × List (Call W)) :=
  fun s r => (h s.1 r, s.2 ++ [Call.ServeHTTP s.1 r])

/-! ## Auxiliary definitions for `makeMap` -/

/-- The loop of `makeMap` started from an arbitrary map. -/
def makeMapFrom (m : Table) (paths : List path) : Table :=
  paths.foldl (fun pathsMap p => pathsMap.insert p.Path p.URL) m

/-- The last rule with path `k`, if any: the first one met from the end. -/
def lastRule (k : String) (paths : List path) : Option path :=
  paths.reverse.find? (fun p => decide (p.Path = k))

/-! ## The decoder of yaml.v2 on the type `[]path`

`parseYAML` hands the document to `yaml.Unmarshal` with a destination of type
`[]path`. What a record with a missing field decodes to is decided there, by the
decoder of gopkg.in/yaml.v2 working from the field tags of `path`. This section
follows that decoder (`decode.go`: `unmarshal`, `scalar`, `sequence`, `mapping`,
`mappingStruct`, not strict) on the destination types that occur, `[]path`,
`path` and `string`. The scanner, parser and composer, which turn bytes into a
node tree, stay a parameter.

The section covers a fragment of YAML: documents in which no node has an explicit
tag (`!!int foo`, `!!binary ...`, `!local x`), no node is an alias (`*a`), and no
mapping has the merge key `<<`. On a scalar with an explicit tag the library
first resolves the text under that tag and gives up the whole call when the text
does not fit; on an alias and on a merge key it decodes other nodes of the
document. None of that is followed here, and no statement below is about a
document that has one of them. -/

/-- The node tree that the library composes from a document of the fragment before
it decodes it into the destination value. A scalar carries no tag, because in the
fragment none has an explicit one: `null` is a plain scalar whose text resolves to
null (`~`, `null`, or nothing at all), `scalar` any other scalar, plain or quoted,
with its text. -/
inductive Node where
  | scalar (value : String)
  | null
  | sequence (children : List Node)
  | mapping (children : List (Node × Node))

/-- The kind of a node. -/
inductive Kind where
  | scalar
  | sequence
  | mapping
  deriving DecidableEq, Repr

/-- One entry of a `*yaml.TypeError`: the kind of the node that did not fit and
the Go type of the destination. The library's text for the entry also names the
line, the short tag the node resolves to and, for a scalar, its text; these are
not kept. -/
structure Mismatch where
  node : Kind
  dest : String
  deriving DecidableEq, Repr

/-- The errors `yaml.Unmarshal` returns: a failure of the scanner, parser or
composer, or a `*yaml.TypeError` that collects the decoder's type mismatches. -/
inductive YAMLError where
  | yamlError (msg : String)
  | TypeError (errors : List Mismatch)
  deriving DecidableEq, Repr

/-- The decoder on a destination of kind string: the new value of the destination,
whether the node was decoded, and the type errors recorded. A scalar without
explicit tag always decodes: one that resolves to null sets the zero value, any
other sets its text, whatever that text resolves to. A collection is a type error
and leaves the destination as it was. -/
def unmarshalString (n : Node) (out : String) : String × Bool × List Mismatch :=
  match n with
  | .scalar value => (value, true, [])
  | .null => ("", true, [])
  | .sequence _ => (out, false, [⟨.sequence, "string"⟩])
  | .mapping _ => (out, false, [⟨.mapping, "string"⟩])

/-- One turn of the loop of `mappingStruct` on a destination of type `path`, for
a key that is not the merge key: the key is decoded as a string; when it is the
yaml tag of a field (`path`, `url`; handler.go, lines 69-70) the value is decoded
into that field; any other key is skipped, as is a key that does not decode. -/
def mappingStructStep (acc : path × List Mismatch) (kv : Node × Node) :
    path × List Mismatch :=
  match unmarshalString kv.1 "" with
  | (name, true, kerrs) =>
    if name = "path" then
      (⟨(unmarshalString kv.2 acc.1.Path).1, acc.1.URL⟩,
        acc.2 ++ kerrs ++ (unmarshalString kv.2 acc.1.Path).2.2)
    else if name = "url" then
      (⟨acc.1.Path, (unmarshalString kv.2 acc.1.URL).1⟩,
        acc.2 ++ kerrs ++ (unmarshalString kv.2 acc.1.URL).2.2)
    else (acc.1, acc.2 ++ kerrs)
  | (_, false, kerrs) => (acc.1, acc.2 ++ kerrs)

/-- The decoder on a mapping node and a destination of type `path`: the loop over
the key/value pairs. A field that no key names is not touched. -/
def mappingStruct (children : List (Node × Node)) (out : path) : path × List Mismatch :=
  children.foldl mappingStructStep (out, [])

/-- The decoder on a destination of type `path`, which starts as the zero value:
a mapping goes through `mappingStruct`, null leaves the zero value, any other node
is a type error. -/
def unmarshalPath (n : Node) : path × Bool × List Mismatch :=
  match n with
  | .mapping children =>
    ((mappingStruct children ⟨"", ""⟩).1, true, (mappingStruct children ⟨"", ""⟩).2)
  | .null => (⟨"", ""⟩, true, [])
  | .scalar _ => (⟨"", ""⟩, false, [⟨.scalar, "urlshort.path"⟩])
  | .sequence _ => (⟨"", ""⟩, false, [⟨.sequence, "urlshort.path"⟩])

/-- One turn of the loop of `sequence` on a destination of type `[]path`: an
element that decodes is appended. -/
def sequenceStep (acc : List path × List Mismatch) (c : Node) :
    List path × List Mismatch :=
  match unmarshalPath c with
  | (e, true, errs) => (acc.1 ++ [e], acc.2 ++ errs)
  | (_, false, errs) => (acc.1, acc.2 ++ errs)

/-- The decoder on a sequence node and a destination of type `[]path`. -/
def sequencePaths (children : List Node) : List path × List Mismatch :=
  children.foldl sequenceStep ([], [])

/-- The decoder on the root node and the destination `paths`, a nil `[]path`. -/
def unmarshalPaths (n : Node) : List path × List Mismatch :=
  match n with
  | .sequence children => sequencePaths children
  | .null => ([], [])
  | .scalar _ => ([], [⟨.scalar, "[]urlshort.path"⟩])
  | .mapping _ => ([], [⟨.mapping, "[]urlshort.path"⟩])

/-- The call `yaml.Unmarshal(yml, &paths)` on a document of the fragment.
`compose yml` is the outcome of scanning, parsing and composing the bytes: a
failure, no document at all, or the root node. The decoder runs on the root node,
and the type errors it recorded, if any, are returned as one `TypeError`. -/
def yaml.Unmarshal (compose : List UInt8 → Except String (Option Node)) (yml : List UInt8) :
    List path × Option YAMLError :=
  match compose yml with
  | .error msg => ([], some (.yamlError msg))
  | .ok none => ([], none)
  | .ok (some node) =>
    match unmarshalPaths node with
    | (paths, []) => (paths, none)
    | (paths, e :: es) => (paths, some (.TypeError (e :: es)))

/-- Whether a node is a scalar, null included. -/
def Node.isScalar (n : Node) : Bool :=
  match n with
  | .scalar _ => true
  | .null => true
  | _ => false

/-- Whether a node is a mapping key that is a scalar and not the merge key. A
quoted `<<` is no merge key to the library, but is turned away all the same. -/
def Node.isKey (n : Node) : Bool :=
  match n with
  | .scalar value => value != "<<"
  | .null => true
  | _ => false

/-- A record: a mapping whose keys are scalars, none the merge key, and whose
values are scalars. -/
def Node.isRecord (n : Node) : Bool :=
  match n with
  | .mapping children => children.all (fun kv => kv.1.isKey && kv.2.isScalar)
  | _ => false

/-- A mapping none of whose keys reads `field`. -/
def Node.lacksField (field : String) (n : Node) : Bool :=
  match n with
  | .mapping children => children.all (fun kv => (unmarshalString kv.1 "").1 != field)
  | _ => false

/-! ## Example data -/

/-- The table of the package's documentation example. -/
def exTable : Table :=
  makeMap [⟨"/urlshort-godoc", "https://godoc.org/github.com/gophercises/urlshort"⟩]

def exHit : Request := ⟨"GET", "/urlshort-godoc", []⟩

def exHitPost : Request := ⟨"POST", "/urlshort-godoc", [("Accept", ["text/html"])]⟩

def exMiss : Request := ⟨"GET", "/missing", []⟩

/-- A response writer state that records what was written: a list of lines. -/
def exRedirect : RedirectFn (List String) :=
  fun w _ url code => w ++ [toString code ++ " " ++ url]

def exFallback : Handler (List String) :=
  fun w r => w ++ ["fallback " ++ r.Path]

def exRules : List path := [⟨"/a", "x"⟩, ⟨"/a", "y"⟩]

/-- A rule sequence with an empty path, an empty destination and a repeated path. -/
def exOddRules : List path := [⟨"", ""⟩, ⟨"/a", "x"⟩, ⟨"/a", "y"⟩]

def exDistinct : List path := [⟨"/a", "x"⟩, ⟨"/b", "y"⟩, ⟨"/c", "z"⟩]

def exDistinctPerm : List path := [⟨"/c", "z"⟩, ⟨"/a", "x"⟩, ⟨"/b", "y"⟩]

/-- The bytes of the document `- path: /a`. -/
def exNoUrlBytes : List UInt8 := [45, 32, 112, 97, 116, 104, 58, 32, 47, 97]

/-- The record of the document `- path: /a`. -/
def exNoUrlRecord : Node := .mapping [(.scalar "path", .scalar "/a")]

/-- The bytes of the document `- url: u`. -/
def exNoPathBytes : List UInt8 := [45, 32, 117, 114, 108, 58, 32, 117]

/-- The record of the document `- url: u`. -/
def exNoPathRecord : Node := .mapping [(.scalar "url", .scalar "u")]

/-- The composer on the two example documents. -/
def exCompose (yml : List UInt8) : Except String (Option Node) :=
  if yml = exNoUrlBytes then .ok (some (.sequence [exNoUrlRecord]))
  else if yml = exNoPathBytes then .ok (some (.sequence [exNoPathRecord]))
  else .error "document outside the examples"

/-! ## Lemmas on `makeMap` -/

theorem makeMap_eq_from (paths : List path) : makeMap paths = makeMapFrom ∅ paths := rfl

theorem makeMapFrom_nil (m : Table) : makeMapFrom m [] = m := rfl

theorem makeMapFrom_cons (m : Table) (p : path) (ps : List path) :
    makeMapFrom m (p :: ps) = makeMapFrom (m.insert p.Path p.URL) ps := rfl

theorem makeMapFrom_append (m : Table) (xs ys : List path) :
    makeMapFrom m (xs ++ ys) = makeMapFrom (makeMapFrom m xs) ys := by
  simp [makeMapFrom, List.foldl_append]

/-- Rules with another path leave the entry of `k` alone. -/
theorem lookup_makeMapFrom_of_forall_ne (k : String) (ps : List path) (m : Table)
    (h : ∀ x ∈ ps, x.Path ≠ k) :
    (makeMapFrom m ps).lookup k = m.lookup k := by
  induction ps generalizing m with
  | nil => rfl
  | cons p ps ih =>
    rw [makeMapFrom_cons, ih _ (fun x hx => h x (List.mem_cons_of_mem _ hx))]
    exact Finmap.lookup_insert_of_ne m (fun e => h p (List.mem_cons_self _ _) e.symm)

/-- The entry of a path is the destination of the rule after which no rule has
that path. -/
theorem lookup_makeMap_append_cons (xs ys : List path) (p : path)
    (h : ∀ x ∈ ys, x.Path ≠ p.Path) :
    (makeMap (xs ++ p :: ys)).lookup p.Path = some p.URL := by
  rw [makeMap_eq_from, makeMapFrom_append, makeMapFrom_cons,
    lookup_makeMapFrom_of_forall_ne _ _ _ h]
  exact Finmap.lookup_insert _

theorem lastRule_append_singleton (k : String) (ps : List path) (p : path) :
    lastRule k (ps ++ [p]) = if p.Path = k then some p else lastRule k ps := by
  simp only [lastRule, List.reverse_append, List.reverse_cons, List.reverse_nil,
    List.nil_append, List.singleton_append, List.find?_cons]
  by_cases hk : p.Path = k <;> simp [hk]

theorem makeMapFrom_append_singleton (m : Table) (ps : List path) (p : path) :
    makeMapFrom m (ps ++ [p]) = (makeMapFrom m ps).insert p.Path p.URL := by
  rw [makeMapFrom_append]; rfl

/-- The table read at `k` is the destination of the last rule with path `k`. -/
theorem lookup_makeMap (k : String) (paths : List path) :
    (makeMap paths).lookup k = (lastRule k paths).map path.URL := by
  induction paths using List.reverseRecOn with
  | nil => simp [makeMap, lastRule]
  | append_singleton ps p ih =>
    rw [makeMap_eq_from, makeMapFrom_append_singleton, lastRule_append_singleton]
    by_cases hk : p.Path = k
    · subst hk; simp
    · rw [if_neg hk, Finmap.lookup_insert_of_ne _ (fun e => hk e.symm), ← makeMap_eq_from, ih]

theorem mem_makeMap (k : String) (paths : List path) :
    k ∈ makeMap paths ↔ ∃ p ∈ paths, p.Path = k := by
  rw [← Finmap.lookup_isSome, lookup_makeMap]
  simp [lastRule]

/-- A path that occurs in the sequence has a last occurrence. -/
theorem exists_last_split (k : String) (paths : List path)
    (h : ∃ r ∈ paths, r.Path = k) :
    ∃ xs q ys, paths = xs ++ q :: ys ∧ q.Path = k ∧ ∀ y ∈ ys, y.Path ≠ k := by
  induction paths with
  | nil => obtain ⟨r, hr, _⟩ := h; cases hr
  | cons a t ih =>
    by_cases ht : ∃ r ∈ t, r.Path = k
    · obtain ⟨xs, q, ys, e, hq, hys⟩ := ih ht
      exact ⟨a :: xs, q, ys, by rw [e]; rfl, hq, hys⟩
    · obtain ⟨r, hr, hk⟩ := h
      rcases List.mem_cons.1 hr with e | hr
      · subst e
        exact ⟨[], r, t, rfl, hk, fun y hy hyk => ht ⟨y, hy, hyk⟩⟩
      · exact absurd ⟨r, hr, hk⟩ ht

/-- The definition `lastRule` picks the rule after which no rule has the path. -/
theorem lastRule_append_cons (xs ys : List path) (q : path)
    (h : ∀ y ∈ ys, y.Path ≠ q.Path) :
    lastRule q.Path (xs ++ q :: ys) = some q := by
  induction ys using List.reverseRecOn with
  | nil => rw [lastRule_append_singleton]; simp
  | append_singleton ys y ih =>
    have e : xs ++ q :: (ys ++ [y]) = (xs ++ q :: ys) ++ [y] := by simp
    rw [e, lastRule_append_singleton, if_neg (h y (by simp))]
    exact ih (fun z hz => h z (by simp [hz]))

theorem lastRule_path (k : String) (paths : List path) (q : path)
    (h : lastRule k paths = some q) : q.Path = k := by
  have := List.find?_some h
  simpa using this

theorem lastRule_mem (k : String) (paths : List path) (q : path)
    (h : lastRule k paths = some q) : q ∈ paths := by
  have := List.mem_of_find?_eq_some h
  simpa using this

/-- With pairwise distinct paths the table holds exactly the rules. -/
theorem lookup_makeMap_of_nodup (k u : String) (paths : List path)
    (nd : (paths.map path.Path).Nodup) :
    (makeMap paths).lookup k = some u ↔ (⟨k, u⟩ : path) ∈ paths := by
  constructor
  · intro h
    rw [lookup_makeMap] at h
    obtain ⟨q, hq, hu⟩ := Option.map_eq_some'.1 h
    have hk := lastRule_path k paths q hq
    have hm := lastRule_mem k paths q hq
    cases q
    simp only at hk hu
    subst hk; subst hu
    exact hm
  · intro h
    obtain ⟨xs, ys, e⟩ := List.append_of_mem h
    subst e
    have nd2 : ((⟨k, u⟩ : path) :: ys).map path.Path |>.Nodup := by
      rw [List.map_append] at nd
      exact (List.nodup_append.1 nd).2.1
    rw [List.map_cons, List.nodup_cons] at nd2
    exact lookup_makeMap_append_cons xs ys ⟨k, u⟩
      (fun y hy e => nd2.1 (e ▸ List.mem_map_of_mem path.Path hy))

/-! ## The claims -/

/-- C1: on a request whose URL path is a key of the table, the handler returned by
`MapHandler` returns what `Redirect(w, r, T[p], StatusFound)` returns, with
`StatusFound = 302`, and the only call it makes is that one: the fallback is not
called. -/
theorem C1_hit_redirects {W : Type} (Redirect : RedirectFn W) (T : Table)
    (fallback : Handler W) (w : W) (r : Request) (h : r.Path ∈ T) :
    ∃ d, T.lookup r.Path = some d ∧
      MapHandler Redirect T fallback w r = Redirect w r d 302 ∧
      MapHandler (logRedirect Redirect) T (logHandler fallback) (w, []) r
        = (Redirect w r d 302, [Call.Redirect w r d 302]) := by
  obtain ⟨d, hd⟩ := Finmap.mem_iff.1 h
  refine ⟨d, hd, ?_, ?_⟩
  · simp only [MapHandler, hd, StatusFound]
  · simp only [MapHandler, hd, StatusFound, logRedirect, List.nil_append]

theorem exHit_mem : exHit.Path ∈ exTable := by
  rw [exTable, mem_makeMap]
  exact ⟨_, List.mem_singleton.2 rfl, rfl⟩

theorem C1_hit_redirects_witness :
    exHit.Path ∈ exTable ∧
    ∃ d, exTable.lookup exHit.Path = some d ∧
      MapHandler exRedirect exTable exFallback [] exHit = exRedirect [] exHit d 302 ∧
      MapHandler (logRedirect exRedirect) exTable (logHandler exFallback) ([], []) exHit
        = (exRedirect [] exHit d 302, [Call.Redirect [] exHit d 302]) :=
  ⟨exHit_mem, C1_hit_redirects exRedirect exTable exFallback [] exHit exHit_mem⟩

/-- C2: on a request whose URL path is not a key of the table, the handler returned
by `MapHandler` returns exactly what `fallback.ServeHTTP(w, r)` returns, and the
only call it makes is that one, once, with the response writer and request it was
given: no redirect. With the empty (or nil) table this is so on every request. -/
theorem C2_miss_delegates {W : Type} (Redirect : RedirectFn W) (T : Table)
    (fallback : Handler W) (w : W) (r : Request) (h : r.Path ∉ T) :
    MapHandler Redirect T fallback w r = fallback w r ∧
    MapHandler (logRedirect Redirect) T (logHandler fallback) (w, []) r
      = (fallback w r, [Call.ServeHTTP w r]) ∧
    (∀ (w0 : W) (r0 : Request),
      MapHandler (logRedirect Redirect) ∅ (logHandler fallback) (w0, []) r0
        = (fallback w0 r0, [Call.ServeHTTP w0 r0])) := by
  have hn := Finmap.lookup_eq_none.2 h
  refine ⟨?_, ?_, ?_⟩
  · simp only [MapHandler, hn]
  · simp only [MapHandler, hn, logHandler, List.nil_append]
  · intro w0 r0
    simp only [MapHandler, Finmap.lookup_empty, logHandler, List.nil_append]

theorem exMiss_not_mem : exMiss.Path ∉ exTable := by
  rw [exTable, mem_makeMap]
  rintro ⟨p, hp, e⟩
  rw [List.mem_singleton.1 hp] at e
  exact absurd e (by decide)

theorem C2_miss_delegates_witness :
    exMiss.Path ∉ exTable ∧
    (MapHandler exRedirect exTable exFallback [] exMiss = exFallback [] exMiss ∧
    MapHandler (logRedirect exRedirect) exTable (logHandler exFallback) ([], []) exMiss
      = (exFallback [] exMiss, [Call.ServeHTTP [] exMiss]) ∧
    (∀ (w0 : List String) (r0 : Request),
      MapHandler (logRedirect exRedirect) ∅ (logHandler exFallback) (w0, []) r0
        = (exFallback w0 r0, [Call.ServeHTTP w0 r0]))) :=
  ⟨exMiss_not_mem, C2_miss_delegates exRedirect exTable exFallback [] exMiss exMiss_not_mem⟩

/-- C3: for every rule sequence and every path `p` that occurs in it, the sequence
splits around the last rule `q` with path `p` (no rule after `q` has path `p`), and
`makeMap(sequence)[p]` is the destination of `q`. -/
theorem C3_last_rule_wins (paths : List path) (p : String)
    (h : ∃ r ∈ paths, r.Path = p) :
    ∃ xs q ys, paths = xs ++ q :: ys ∧ q.Path = p ∧ (∀ y ∈ ys, y.Path ≠ p) ∧
      (makeMap paths).lookup p = some q.URL := by
  obtain ⟨xs, q, ys, e, hq, hys⟩ := exists_last_split p paths h
  refine ⟨xs, q, ys, e, hq, hys, ?_⟩
  subst e; subst hq
  exact lookup_makeMap_append_cons xs ys q hys

theorem C3_last_rule_wins_witness :
    (∃ r ∈ exRules, r.Path = "/a") ∧
    (∃ xs q ys, exRules = xs ++ q :: ys ∧ q.Path = "/a" ∧ (∀ y ∈ ys, y.Path ≠ "/a") ∧
      (makeMap exRules).lookup "/a" = some q.URL) ∧
    (makeMap exRules).lookup "/a" = some "y" :=
  ⟨⟨⟨"/a", "x"⟩, by simp [exRules], rfl⟩,
   C3_last_rule_wins exRules "/a" ⟨⟨"/a", "x"⟩, by simp [exRules], rfl⟩,
   by decide⟩

/-- C4: when the document parses to the rule sequence `S`, `YAMLHandler` returns a
handler (and a nil error) that on every response writer state and request does what
`MapHandler(makeMap(S), fallback)` does; this holds for every `Redirect` and
`fallback`, the logging ones included, so the calls made agree as well. -/
theorem C4_yaml_refines_map {W E : Type} (Unmarshal : List UInt8 → List path × Option E)
    (Redirect : RedirectFn W) (yml : List UInt8) (fallback : Handler W) (S : List path)
    (h : parseYAML Unmarshal yml = (S, none)) :
    ∃ hd, YAMLHandler Unmarshal Redirect yml fallback = (some hd, none) ∧
      (∀ w r, hd w r = MapHandler Redirect (makeMap S) fallback w r) ∧
      ∃ hl, YAMLHandler Unmarshal (logRedirect Redirect) yml (logHandler fallback)
          = (some hl, none) ∧
        ∀ s r, hl s r
          = MapHandler (logRedirect Redirect) (makeMap S) (logHandler fallback) s r := by
  refine ⟨MapHandler Redirect (makeMap S) fallback, ?_, fun _ _ => rfl,
    MapHandler (logRedirect Redirect) (makeMap S) (logHandler fallback), ?_, fun _ _ => rfl⟩
  · simp only [YAMLHandler, h]
  · simp only [YAMLHandler, h]

theorem C4_yaml_refines_map_witness :
    parseYAML (fun _ => (exRules, (none : Option String))) [45, 32] = (exRules, none) ∧
    ∃ hd, YAMLHandler (fun _ => (exRules, (none : Option String))) exRedirect [45, 32]
        exFallback = (some hd, none) ∧
      (∀ w r, hd w r = MapHandler exRedirect (makeMap exRules) exFallback w r) ∧
      ∃ hl, YAMLHandler (fun _ => (exRules, (none : Option String))) (logRedirect exRedirect)
          [45, 32] (logHandler exFallback) = (some hl, none) ∧
        ∀ s r, hl s r
          = MapHandler (logRedirect exRedirect) (makeMap exRules) (logHandler exFallback) s r :=
  ⟨rfl, C4_yaml_refines_map _ exRedirect [45, 32] exFallback exRules rfl⟩

/-- C5: when `parseYAML` returns the error `e`, `YAMLHandler` returns the nil
handler together with that same `e`. -/
theorem C5_parse_error_propagates {W E : Type}
    (Unmarshal : List UInt8 → List path × Option E) (Redirect : RedirectFn W)
    (yml : List UInt8) (fallback : Handler W) (e : E)
    (h : (parseYAML Unmarshal yml).2 = some e) :
    YAMLHandler Unmarshal Redirect yml fallback = (none, some e) := by
  unfold YAMLHandler
  rcases hp : parseYAML Unmarshal yml with ⟨paths, _ | err⟩
  · rw [hp] at h; cases h
  · rw [hp] at h
    cases h
    rfl

theorem C5_parse_error_propagates_witness :
    (parseYAML (fun _ => (exRules, some "yaml: line 1: did not find expected key"))
        [58]).2 = some "yaml: line 1: did not find expected key" ∧
    YAMLHandler (fun _ => (exRules, some "yaml: line 1: did not find expected key"))
        exRedirect [58] exFallback
      = (none, some "yaml: line 1: did not find expected key") :=
  ⟨rfl, C5_parse_error_propagates _ exRedirect [58] exFallback _ rfl⟩

/-- C6: `YAMLHandler` returns a non-nil error only if `parseYAML` does; whenever
`parseYAML` succeeds, with any rule sequence, it returns a non-nil handler and a
nil error; `makeMap` yields a table on every sequence and the handler of
`MapHandler` yields a result on every table, state and request, which is the
redirect's or the fallback's. -/
theorem C6_only_parsing_fails {W E : Type}
    (Unmarshal : List UInt8 → List path × Option E) (Redirect : RedirectFn W)
    (yml : List UInt8) (fallback : Handler W) :
    ((YAMLHandler Unmarshal Redirect yml fallback).2 ≠ none →
      (parseYAML Unmarshal yml).2 ≠ none) ∧
    (∀ S, parseYAML Unmarshal yml = (S, none) →
      (YAMLHandler Unmarshal Redirect yml fallback).1.isSome = true ∧
      (YAMLHandler Unmarshal Redirect yml fallback).2 = none) ∧
    (∀ S : List path, ∃ T : Table, makeMap S = T ∧ ∀ k, k ∈ T ↔ ∃ p ∈ S, p.Path = k) ∧
    (∀ (T : Table) (w : W) (r : Request),
      (∃ d, MapHandler Redirect T fallback w r = Redirect w r d 302) ∨
      MapHandler Redirect T fallback w r = fallback w r) := by
  refine ⟨?_, ?_, ?_, ?_⟩
  · unfold YAMLHandler
    rcases hp : parseYAML Unmarshal yml with ⟨paths, _ | err⟩
    · intro hn; exact absurd rfl hn
    · intro _ hn; cases hn
  · intro S hS
    simp only [YAMLHandler, hS, Option.isSome_some, and_self]
  · intro S
    exact ⟨makeMap S, rfl, fun k => mem_makeMap k S⟩
  · intro T w r
    unfold MapHandler
    rcases hl : T.lookup r.Path with _ | d
    · exact Or.inr rfl
    · exact Or.inl ⟨d, rfl⟩

theorem C6_only_parsing_fails_witness :
    (YAMLHandler (fun _ => (exOddRules, (none : Option String))) exRedirect []
        exFallback).1.isSome = true ∧
    (YAMLHandler (fun _ => (exOddRules, (none : Option String))) exRedirect []
        exFallback).2 = none ∧
    (YAMLHandler (fun _ => (([] : List path), (none : Option String))) exRedirect []
        exFallback).1.isSome = true :=
  ⟨((C6_only_parsing_fails (fun _ => (exOddRules, (none : Option String))) exRedirect []
      exFallback).2.1 exOddRules rfl).1,
   ((C6_only_parsing_fails (fun _ => (exOddRules, (none : Option String))) exRedirect []
      exFallback).2.1 exOddRules rfl).2,
   ((C6_only_parsing_fails (fun _ => (([] : List path), (none : Option String))) exRedirect []
      exFallback).2.1 [] rfl).1⟩

/-- C8: when the document parses to `S` and the request's URL path is the path of
no rule of `S`, the handler `YAMLHandler` returns gives what the fallback gives,
and its only call is `fallback.ServeHTTP(w, r)`; the keys of `makeMap(S)` are
exactly the paths that occur in `S`. -/
theorem C8_unlisted_path_falls_back {W E : Type}
    (Unmarshal : List UInt8 → List path × Option E) (Redirect : RedirectFn W)
    (yml : List UInt8) (fallback : Handler W) (S : List path) (w : W) (r : Request)
    (h : parseYAML Unmarshal yml = (S, none)) (hr : ∀ p ∈ S, p.Path ≠ r.Path) :
    (∃ hd, YAMLHandler Unmarshal Redirect yml fallback = (some hd, none) ∧
      hd w r = fallback w r) ∧
    (∃ hl, YAMLHandler Unmarshal (logRedirect Redirect) yml (logHandler fallback)
        = (some hl, none) ∧
      hl (w, []) r = (fallback w r, [Call.ServeHTTP w r])) ∧
    (∀ k, k ∈ makeMap S ↔ ∃ p ∈ S, p.Path = k) := by
  have hn : r.Path ∉ makeMap S := by
    rw [mem_makeMap]
    rintro ⟨p, hp, e⟩
    exact hr p hp e
  have hl := Finmap.lookup_eq_none.2 hn
  refine ⟨⟨MapHandler Redirect (makeMap S) fallback, ?_, ?_⟩,
    ⟨MapHandler (logRedirect Redirect) (makeMap S) (logHandler fallback), ?_, ?_⟩,
    fun k => mem_makeMap k S⟩
  · simp only [YAMLHandler, h]
  · simp only [MapHandler, hl]
  · simp only [YAMLHandler, h]
  · simp only [MapHandler, hl, logHandler, List.nil_append]

theorem exMiss_unlisted : ∀ p ∈ exRules, p.Path ≠ exMiss.Path := by
  decide

theorem C8_unlisted_path_falls_back_witness :
    (∃ hd, YAMLHandler (fun _ => (exRules, (none : Option String))) exRedirect [45, 32]
        exFallback = (some hd, none) ∧
      hd [] exMiss = exFallback [] exMiss) ∧
    (∃ hl, YAMLHandler (fun _ => (exRules, (none : Option String))) (logRedirect exRedirect)
        [45, 32] (logHandler exFallback) = (some hl, none) ∧
      hl ([], []) exMiss = (exFallback [] exMiss, [Call.ServeHTTP [] exMiss])) ∧
    (∀ k, k ∈ makeMap exRules ↔ ∃ p ∈ exRules, p.Path = k) :=
  C8_unlisted_path_falls_back (fun _ => (exRules, (none : Option String))) exRedirect
    [45, 32] exFallback exRules [] exMiss rfl exMiss_unlisted

theorem makeMap_eq_of_lastRule_eq (S1 S2 : List path)
    (h : ∀ k, lastRule k S1 = lastRule k S2) : makeMap S1 = makeMap S2 :=
  Finmap.ext_lookup (fun k => by rw [lookup_makeMap, lookup_makeMap, h k])

theorem lastRule_eq_of_makeMap_eq (S1 S2 : List path) (h : makeMap S1 = makeMap S2)
    (k : String) : lastRule k S1 = lastRule k S2 := by
  have hl : (lastRule k S1).map path.URL = (lastRule k S2).map path.URL := by
    rw [← lookup_makeMap, ← lookup_makeMap, h]
  rcases h1 : lastRule k S1 with _ | q1 <;> rcases h2 : lastRule k S2 with _ | q2
  · rfl
  · rw [h1, h2] at hl; cases hl
  · rw [h1, h2] at hl; cases hl
  · rw [h1, h2] at hl
    have hu : q1.URL = q2.URL := by simpa using hl
    have hp1 := lastRule_path k S1 q1 h1
    have hp2 := lastRule_path k S2 q2 h2
    cases q1; cases q2
    simp only at hu hp1 hp2
    subst hu; subst hp1; subst hp2
    rfl

theorem makeMap_perm_of_nodup (S1 S2 : List path) (nd : (S1.map path.Path).Nodup)
    (hp : S1.Perm S2) : makeMap S1 = makeMap S2 := by
  have nd2 : (S2.map path.Path).Nodup := (hp.map path.Path).nodup_iff.1 nd
  refine Finmap.ext_lookup (fun k => Option.ext (fun u => ?_))
  rw [Option.mem_def, Option.mem_def, lookup_makeMap_of_nodup k u S1 nd,
    lookup_makeMap_of_nodup k u S2 nd2]
  exact hp.mem_iff

/-- C9: for rule sequences with pairwise distinct paths, `makeMap` of any
permutation is the same table; and two sequences yield the same table exactly
when, for each path, their last rule with that path is the same. -/
theorem C9_order_only_for_duplicates :
    (∀ S1 S2 : List path, (S1.map path.Path).Nodup → S1.Perm S2 →
      makeMap S1 = makeMap S2) ∧
    (∀ S1 S2 : List path, (∀ k, lastRule k S1 = lastRule k S2) ↔
      makeMap S1 = makeMap S2) :=
  ⟨makeMap_perm_of_nodup,
   fun S1 S2 => ⟨makeMap_eq_of_lastRule_eq S1 S2, lastRule_eq_of_makeMap_eq S1 S2⟩⟩

theorem C9_order_only_for_duplicates_witness :
    makeMap exDistinct = makeMap exDistinctPerm ∧
    makeMap [⟨"/a", "x"⟩, ⟨"/a", "y"⟩, ⟨"/b", "z"⟩]
      = makeMap [⟨"/b", "w"⟩, ⟨"/b", "z"⟩, ⟨"/a", "y"⟩] :=
  ⟨C9_order_only_for_duplicates.1 exDistinct exDistinctPerm (by decide) (by decide),
   (C9_order_only_for_duplicates.2 _ _).1 (fun k => by
      by_cases ha : k = "/a"
      · subst ha; decide
      · by_cases hb : k = "/b"
        · subst hb; decide
        · have ha2 : ¬ "/a" = k := fun e => ha e.symm
          have hb2 : ¬ "/b" = k := fun e => hb e.symm
          simp [lastRule, List.find?_cons, ha2, hb2])⟩

/-- C10: two requests with the same URL path, whatever their method and headers,
take the same branch of the handler: either both are redirected, with status 302,
to the same destination and the fallback is not called, or both go to the fallback
and no redirect is issued. -/
theorem C10_only_path_consulted {W : Type} (Redirect : RedirectFn W) (T : Table)
    (fallback : Handler W) (r1 r2 : Request) (h : r1.Path = r2.Path) :
    (∃ d, T.lookup r1.Path = some d ∧ T.lookup r2.Path = some d ∧ ∀ w1 w2 : W,
      MapHandler (logRedirect Redirect) T (logHandler fallback) (w1, []) r1
        = (Redirect w1 r1 d 302, [Call.Redirect w1 r1 d 302]) ∧
      MapHandler (logRedirect Redirect) T (logHandler fallback) (w2, []) r2
        = (Redirect w2 r2 d 302, [Call.Redirect w2 r2 d 302])) ∨
    (T.lookup r1.Path = none ∧ T.lookup r2.Path = none ∧ ∀ w1 w2 : W,
      MapHandler (logRedirect Redirect) T (logHandler fallback) (w1, []) r1
        = (fallback w1 r1, [Call.ServeHTTP w1 r1]) ∧
      MapHandler (logRedirect Redirect) T (logHandler fallback) (w2, []) r2
        = (fallback w2 r2, [Call.ServeHTTP w2 r2])) := by
  rcases hl : T.lookup r1.Path with _ | d
  · have hl2 : T.lookup r2.Path = none := h ▸ hl
    refine Or.inr ⟨rfl, hl2, fun w1 w2 => ⟨?_, ?_⟩⟩
    · simp only [MapHandler, hl, logHandler, List.nil_append]
    · simp only [MapHandler, hl2, logHandler, List.nil_append]
  · have hl2 : T.lookup r2.Path = some d := h ▸ hl
    refine Or.inl ⟨d, rfl, hl2, fun w1 w2 => ⟨?_, ?_⟩⟩
    · simp only [MapHandler, hl, logRedirect, StatusFound, List.nil_append]
    · simp only [MapHandler, hl2, logRedirect, StatusFound, List.nil_append]

theorem C10_only_path_consulted_witness :
    exHit.Path = exHitPost.Path ∧ exHit ≠ exHitPost ∧
    ((∃ d, exTable.lookup exHit.Path = some d ∧ exTable.lookup exHitPost.Path = some d ∧
      ∀ w1 w2 : List String,
      MapHandler (logRedirect exRedirect) exTable (logHandler exFallback) (w1, []) exHit
        = (exRedirect w1 exHit d 302, [Call.Redirect w1 exHit d 302]) ∧
      MapHandler (logRedirect exRedirect) exTable (logHandler exFallback) (w2, []) exHitPost
        = (exRedirect w2 exHitPost d 302, [Call.Redirect w2 exHitPost d 302])) ∨
    (exTable.lookup exHit.Path = none ∧ exTable.lookup exHitPost.Path = none ∧
      ∀ w1 w2 : List String,
      MapHandler (logRedirect exRedirect) exTable (logHandler exFallback) (w1, []) exHit
        = (exFallback w1 exHit, [Call.ServeHTTP w1 exHit]) ∧
      MapHandler (logRedirect exRedirect) exTable (logHandler exFallback) (w2, []) exHitPost
        = (exFallback w2 exHitPost, [Call.ServeHTTP w2 exHitPost]))) :=
  ⟨rfl, by decide, C10_only_path_consulted exRedirect exTable exFallback exHit exHitPost rfl⟩

/-! ## Records with a missing field -/

theorem unmarshalString_isScalar (n : Node) (out : String) (h : n.isScalar = true) :
    (unmarshalString n out).2 = (true, []) := by
  cases n <;> simp_all [Node.isScalar, unmarshalString]

theorem Node.isScalar_of_isKey (n : Node) (h : n.isKey = true) : n.isScalar = true := by
  cases n <;> simp_all [Node.isScalar, Node.isKey]

/-- A pair of scalars adds no type error. -/
theorem mappingStructStep_errors (acc : path × List Mismatch) (kv : Node × Node)
    (hk : kv.1.isScalar = true) (hv : kv.2.isScalar = true) :
    (mappingStructStep acc kv).2 = acc.2 := by
  have h1 := unmarshalString_isScalar kv.1 "" hk
  have h2 := unmarshalString_isScalar kv.2 acc.1.Path hv
  have h3 := unmarshalString_isScalar kv.2 acc.1.URL hv
  unfold mappingStructStep
  rcases hu : unmarshalString kv.1 "" with ⟨name, good, kerrs⟩
  rw [hu] at h1
  simp only [Prod.mk.injEq] at h1
  obtain ⟨hg, he⟩ := h1
  subst hg; subst he
  simp only [List.append_nil]
  split_ifs
  · rw [congrArg Prod.snd h2, List.append_nil]
  · rw [congrArg Prod.snd h3, List.append_nil]
  · rfl

theorem foldl_mappingStructStep_errors (children : List (Node × Node))
    (h : ∀ kv ∈ children, kv.1.isScalar = true ∧ kv.2.isScalar = true)
    (acc : path × List Mismatch) :
    (children.foldl mappingStructStep acc).2 = acc.2 := by
  induction children generalizing acc with
  | nil => rfl
  | cons kv t ih =>
    rw [List.foldl_cons, ih (fun x hx => h x (List.mem_cons_of_mem _ hx)),
      mappingStructStep_errors acc kv (h kv (List.mem_cons_self _ _)).1
        (h kv (List.mem_cons_self _ _)).2]

/-- A key other than `url` leaves the field `URL` as it was. -/
theorem mappingStructStep_URL (acc : path × List Mismatch) (kv : Node × Node)
    (hk : (unmarshalString kv.1 "").1 ≠ "url") :
    (mappingStructStep acc kv).1.URL = acc.1.URL := by
  unfold mappingStructStep
  rcases hu : unmarshalString kv.1 "" with ⟨name, good, kerrs⟩
  rw [hu] at hk
  cases good
  · rfl
  · simp only
    split_ifs <;> rfl

/-- A key other than `path` leaves the field `Path` as it was. -/
theorem mappingStructStep_Path (acc : path × List Mismatch) (kv : Node × Node)
    (hk : (unmarshalString kv.1 "").1 ≠ "path") :
    (mappingStructStep acc kv).1.Path = acc.1.Path := by
  unfold mappingStructStep
  rcases hu : unmarshalString kv.1 "" with ⟨name, good, kerrs⟩
  rw [hu] at hk
  cases good
  · rfl
  · simp only
    split_ifs with h1 <;> first | rfl | exact absurd h1 hk

theorem foldl_mappingStructStep_URL (children : List (Node × Node))
    (h : ∀ kv ∈ children, (unmarshalString kv.1 "").1 ≠ "url") (acc : path × List Mismatch) :
    (children.foldl mappingStructStep acc).1.URL = acc.1.URL := by
  induction children generalizing acc with
  | nil => rfl
  | cons kv t ih =>
    rw [List.foldl_cons, ih (fun x hx => h x (List.mem_cons_of_mem _ hx)),
      mappingStructStep_URL acc kv (h kv (List.mem_cons_self _ _))]

theorem foldl_mappingStructStep_Path (children : List (Node × Node))
    (h : ∀ kv ∈ children, (unmarshalString kv.1 "").1 ≠ "path") (acc : path × List Mismatch) :
    (children.foldl mappingStructStep acc).1.Path = acc.1.Path := by
  induction children generalizing acc with
  | nil => rfl
  | cons kv t ih =>
    rw [List.foldl_cons, ih (fun x hx => h x (List.mem_cons_of_mem _ hx)),
      mappingStructStep_Path acc kv (h kv (List.mem_cons_self _ _))]

/-- A record decodes, with no type error. -/
theorem unmarshalPath_isRecord (c : Node) (h : c.isRecord = true) :
    (unmarshalPath c).2 = (true, []) := by
  cases c with
  | mapping children =>
    simp only [Node.isRecord, List.all_eq_true, Bool.and_eq_true] at h
    have h2 : ∀ kv ∈ children, kv.1.isScalar = true ∧ kv.2.isScalar = true :=
      fun kv hkv => ⟨Node.isScalar_of_isKey kv.1 (h kv hkv).1, (h kv hkv).2⟩
    simp only [unmarshalPath, mappingStruct, foldl_mappingStructStep_errors children h2]
  | scalar v => simp [Node.isRecord] at h
  | null => simp [Node.isRecord] at h
  | sequence cs => simp [Node.isRecord] at h

/-- A record without the key `url` decodes to a rule with the empty destination. -/
theorem unmarshalPath_lacks_url (c : Node) (h : c.lacksField "url" = true) :
    (unmarshalPath c).1.URL = "" := by
  cases c with
  | mapping children =>
    simp only [Node.lacksField, List.all_eq_true, bne_iff_ne] at h
    simp only [unmarshalPath, mappingStruct, foldl_mappingStructStep_URL children h]
  | scalar v => simp [Node.lacksField] at h
  | null => simp [Node.lacksField] at h
  | sequence cs => simp [Node.lacksField] at h

/-- A record without the key `path` decodes to a rule with the empty path. -/
theorem unmarshalPath_lacks_path (c : Node) (h : c.lacksField "path" = true) :
    (unmarshalPath c).1.Path = "" := by
  cases c with
  | mapping children =>
    simp only [Node.lacksField, List.all_eq_true, bne_iff_ne] at h
    simp only [unmarshalPath, mappingStruct, foldl_mappingStructStep_Path children h]
  | scalar v => simp [Node.lacksField] at h
  | null => simp [Node.lacksField] at h
  | sequence cs => simp [Node.lacksField] at h

/-- A sequence of records decodes to one rule per record, with no type error. -/
theorem foldl_sequenceStep_records (cs : List Node) (h : ∀ c ∈ cs, c.isRecord = true)
    (acc : List path × List Mismatch) :
    cs.foldl sequenceStep acc = (acc.1 ++ cs.map (fun c => (unmarshalPath c).1), acc.2) := by
  induction cs generalizing acc with
  | nil => simp
  | cons c t ih =>
    have hc := unmarshalPath_isRecord c (h c (List.mem_cons_self _ _))
    rw [List.foldl_cons, ih (fun x hx => h x (List.mem_cons_of_mem _ hx))]
    unfold sequenceStep
    rcases hu : unmarshalPath c with ⟨e, good, errs⟩
    rw [hu] at hc
    simp only [Prod.mk.injEq] at hc
    obtain ⟨hg, he⟩ := hc
    subst hg; subst he
    simp [hu]

/-- C7, as stated, fails: the document `- path: /a`, whose only record lacks the
field `url`, parses without error to the rule with path `/a` and the empty
destination, and `YAMLHandler` returns a handler and a nil error; the document
`- url: u`, whose record lacks `path`, likewise. -/
theorem C7_missing_field_counterexample :
    (exNoUrlRecord.lacksField "url" = true ∧
      exCompose exNoUrlBytes = .ok (some (.sequence [exNoUrlRecord])) ∧
      parseYAML (yaml.Unmarshal exCompose) exNoUrlBytes = ([⟨"/a", ""⟩], none) ∧
      (YAMLHandler (yaml.Unmarshal exCompose) exRedirect exNoUrlBytes exFallback).1.isSome = true ∧
      (YAMLHandler (yaml.Unmarshal exCompose) exRedirect exNoUrlBytes exFallback).2 = none) ∧
    (exNoPathRecord.lacksField "path" = true ∧
      exCompose exNoPathBytes = .ok (some (.sequence [exNoPathRecord])) ∧
      parseYAML (yaml.Unmarshal exCompose) exNoPathBytes = ([⟨"", "u"⟩], none) ∧
      (YAMLHandler (yaml.Unmarshal exCompose) exRedirect exNoPathBytes exFallback).1.isSome = true ∧
      (YAMLHandler (yaml.Unmarshal exCompose) exRedirect exNoPathBytes exFallback).2 = none) :=
  ⟨⟨by decide, rfl, by decide, by decide, by decide⟩,
   ⟨by decide, rfl, by decide, by decide, by decide⟩⟩

/-- C7, amended: for every document without explicit tags, aliases and merge keys
that composes to a list of records (mappings with scalar keys and scalar values),
`yaml.Unmarshal` returns no error and one rule per record, and `YAMLHandler`
returns the handler of the table of these rules and a nil error; a record that
lacks the field `url` gives a rule whose destination is the empty string, and one
that lacks `path` a rule whose path is the empty string. For every `Unmarshal`,
the error `YAMLHandler` returns is the one `Unmarshal` returns, and it returns a
handler exactly when that error is nil. -/
theorem C7_missing_field_is_empty {W : Type}
    (compose : List UInt8 → Except String (Option Node)) (Redirect : RedirectFn W)
    (yml : List UInt8) (fallback : Handler W) (cs : List Node)
    (h : compose yml = .ok (some (.sequence cs))) (hrec : ∀ c ∈ cs, c.isRecord = true) :
    parseYAML (yaml.Unmarshal compose) yml = (cs.map (fun c => (unmarshalPath c).1), none) ∧
    YAMLHandler (yaml.Unmarshal compose) Redirect yml fallback
      = (some (MapHandler Redirect (makeMap (cs.map (fun c => (unmarshalPath c).1))) fallback),
          none) ∧
    (∀ c ∈ cs, c.lacksField "url" = true → (unmarshalPath c).1.URL = "") ∧
    (∀ c ∈ cs, c.lacksField "path" = true → (unmarshalPath c).1.Path = "") ∧
    (∀ (E : Type) (U : List UInt8 → List path × Option E) (y : List UInt8),
      (YAMLHandler U Redirect y fallback).2 = (U y).2 ∧
      ((YAMLHandler U Redirect y fallback).1.isSome = true ↔ (U y).2 = none)) := by
  have hU : yaml.Unmarshal compose yml = (cs.map (fun c => (unmarshalPath c).1), none) := by
    simp only [yaml.Unmarshal, h, unmarshalPaths, sequencePaths,
      foldl_sequenceStep_records cs hrec, List.nil_append]
  have hP : parseYAML (yaml.Unmarshal compose) yml
      = (cs.map (fun c => (unmarshalPath c).1), none) := by
    simp only [parseYAML, hU]
  refine ⟨hP, ?_, fun c _ hc => unmarshalPath_lacks_url c hc,
    fun c _ hc => unmarshalPath_lacks_path c hc, ?_⟩
  · simp only [YAMLHandler, hP]
  · intro E U y
    unfold YAMLHandler parseYAML
    rcases hy : U y with ⟨ps, _ | e⟩ <;> simp

theorem exNoUrl_records :
    ∀ c ∈ [exNoUrlRecord], c.isRecord = true := by
  decide

theorem C7_missing_field_is_empty_witness :
    exCompose exNoUrlBytes = .ok (some (.sequence [exNoUrlRecord])) ∧
    (∀ c ∈ [exNoUrlRecord], c.isRecord = true) ∧
    parseYAML (yaml.Unmarshal exCompose) exNoUrlBytes = ([⟨"/a", ""⟩], none) ∧
    (YAMLHandler (yaml.Unmarshal exCompose) exRedirect exNoUrlBytes exFallback).2 = none ∧
    (unmarshalPath exNoUrlRecord).1.URL = "" :=
  ⟨rfl, exNoUrl_records,
   (C7_missing_field_is_empty exCompose exRedirect exNoUrlBytes exFallback [exNoUrlRecord]
    rfl exNoUrl_records).1,
   congrArg Prod.snd (C7_missing_field_is_empty exCompose exRedirect exNoUrlBytes exFallback
    [exNoUrlRecord] rfl exNoUrl_records).2.1,
   (C7_missing_field_is_empty exCompose exRedirect exNoUrlBytes exFallback [exNoUrlRecord]
    rfl exNoUrl_records).2.2.1 exNoUrlRecord (List.mem_singleton.2 rfl) (by decide)⟩

end urlshort
